import Mathlib

set_option maxHeartbeats 1000000

namespace Revamb

/-!
Shallow embedding of `src/codegenerator.cpp` (the revamb translation
orchestrator).  Part 1 embeds the helper-stubbing logic around
`replaceFunction` / `replaceFunctionWithRet` (lines 65-92), the stub tables
and fixed-value stubs applied in `CodeGenerator::translate` (lines 240-292),
and `CodeGenerator::serialize` (lines 316-323).  Part 2 embeds the per-batch
pseudo-op dispatch loop of `CodeGenerator::translate` (lines 160-221) with
its metadata tagging walk.
-/

/-- Linkage of an LLVM global value (only the cases the source touches). -/
inductive Linkage where
  | external
  | internal
  | common
deriving DecidableEq, Repr

/-- Shape of a function return type, as the source distinguishes it with
`isVoidTy` / `isIntegerTy` in `replaceFunctionWithRet`; `other` stands for
every remaining LLVM type. -/
inductive RetTy where
  | void
  | int (bits : Nat)
  | other
deriving DecidableEq, Repr

/-- Instructions that can appear in a stub body built by the source:
`ReturnInst` with a constant or void operand, a `ReturnInst` whose operand
is the indeterminate `ResultValue` local (the fall-out of the always-true
assert in `replaceFunctionWithRet`), a `CallInst`, and `UnreachableInst`. -/
inductive StubInst where
  | ret (v : Option Nat)
  | retGarbage
  | call (callee : String)
  | unreachable
deriving DecidableEq, Repr

/-- An LLVM function of the Support (helpers) Module: its name, declared
return type, linkage and body (a list of basic blocks). -/
structure Function where
  name : String
  retTy : RetTy
  linkage : Linkage
  blocks : List (List StubInst)
deriving DecidableEq, Repr

/-- The Support Module: the list of its functions. -/
abbrev Module := List Function

/-- `Module::getFunction`: the first function carrying the given name,
or `none`. -/
def getFunction : Module → String → Option Function
  | [], _ => none
  | f :: fs, s => if f.name = s then some f else getFunction fs s

/-- In-place mutation of the named function, rendered functionally: replace
the first function carrying the given name. -/
def setFunction : Module → String → Function → Module
  | [], _, _ => []
  | g :: gs, n, f => if g.name = n then f :: gs else g :: setFunction gs n f

/-- `replaceFunction` (codegenerator.cpp lines 65-72): set the linkage to
internal, drop every basic block of the body (`dropAllReferences` on a
`Function` erases all its blocks) and create one fresh empty block. -/
def replaceFunction (toReplace : Function) : Function :=
  { toReplace with linkage := .internal, blocks := [[]] }

/-- `replaceFunctionWithRet` (codegenerator.cpp lines 74-92): a null input is
silently skipped; otherwise the body is replaced and a single `ReturnInst` is
created.  For a void return type the source asserts `Result == 0`.  For a
return type that is neither void nor integer the source executes
`assert("No-op functions can only return void or an integer type")`: the
asserted expression is a non-null string literal, so the assertion always
passes, and the subsequent `ReturnInst::Create` receives the indeterminate
`ResultValue` local. -/
def replaceFunctionWithRet (toReplace : Option Function) (result : Nat) :
    Except String (Option Function) :=
  match toReplace with
  | none => .ok none
  | some f =>
    let f1 := replaceFunction f
    match f.retTy with
    | .void =>
      if result = 0 then .ok (some { f1 with blocks := [[.ret none]] })
      else .error "assert failed: Result == 0"
    | .int bits =>
      .ok (some { f1 with blocks := [[.ret (some (result % 2 ^ bits))]] })
    | .other =>
      .ok (some { f1 with blocks := [[.retGarbage]] })

/-- One iteration of the loop `for (auto Name : NoOpFunctionNames)`
(codegenerator.cpp lines 277-278), lifted to the module: look the name up and
run `replaceFunctionWithRet` on the result. -/
def neutralizeStub (m : Module) (name : String) (result : Nat) :
    Except String Module :=
  match replaceFunctionWithRet (getFunction m name) result with
  | .error e => .error e
  | .ok none => .ok m
  | .ok (some f1) => .ok (setFunction m name f1)

/-- One iteration of the loop `for (auto Name : AbortFunctionNames)`
(codegenerator.cpp lines 280-288): a missing name is skipped; for a present
name the source asserts that `abort` exists in the helpers module, replaces
the body and fills the fresh block with a call to `abort` followed by an
`UnreachableInst`. -/
def trapStub (m : Module) (name : String) : Except String Module :=
  match getFunction m name with
  | none => .ok m
  | some f =>
    if (getFunction m "abort").isSome then
      .ok (setFunction m name
            { replaceFunction f with blocks := [[.call "abort", .unreachable]] })
    else
      .error "assert failed: abort != nullptr"

/-- The "neutralize" stub table (codegenerator.cpp lines 240-253). -/
def NoOpFunctionNames : List String :=
  ["qemu_log_mask", "fprintf", "cpu_dump_state", "mmap_lock", "mmap_unlock",
   "pthread_cond_broadcast", "pthread_mutex_unlock", "pthread_mutex_lock",
   "pthread_cond_wait", "pthread_cond_signal", "cpu_exit", "start_exclusive",
   "process_pending_signals", "end_exclusive"]

/-- The "trap" stub table (codegenerator.cpp lines 254-264). -/
def AbortFunctionNames : List String :=
  ["cpu_restore_state", "gdb_handlesig", "queue_signal", "cpu_mips_exec",
   "print_syscall", "print_syscall_ret", "EmulateAll", "cpu_abort",
   "do_arm_semihosting"]

/-- The whole loop over the neutralize table (codegenerator.cpp 277-278). -/
def noopAll (m : Module) : Except String Module :=
  NoOpFunctionNames.foldlM (fun acc n => neutralizeStub acc n 0) m

/-- The whole loop over the trap table (codegenerator.cpp 280-288). -/
def trapAll (m : Module) : Except String Module :=
  AbortFunctionNames.foldlM (fun acc n => trapStub acc n) m

/-- The two dedicated fixed-value stubs (codegenerator.cpp lines 290-292):
`page_check_range` always returns 1, `page_get_flags` always returns
`0xffffffff`. -/
def specialStubs (m : Module) : Except String Module :=
  match neutralizeStub m "page_check_range" 1 with
  | .error e => .error e
  | .ok m1 => neutralizeStub m1 "page_get_flags" 0xffffffff

/-- The linkage of the named function of a module, when present. -/
def linkageOf (m : Module) (s : String) : Option Linkage :=
  (getFunction m s).map (fun f => f.linkage)

/-- Whether a stubbing run aborted (an assertion fired). -/
def isFatal : Except String Module → Bool
  | .error _ => true
  | .ok _ => false

/-- Number of positions at which two modules differ (positions beyond the
shorter module are not counted). -/
def diffCount (a b : Module) : Nat :=
  (a.zip b).countP (fun p => decide (p.1 ≠ p.2))

/-- Observable outcome of `CodeGenerator::serialize`. -/
structure SerializeOutcome where
  wrote : Bool
  openFailureReported : Bool
deriving DecidableEq, Repr

/-- `CodeGenerator::serialize` (codegenerator.cpp lines 316-323).  Modelled
from the spec: `DebugHelper::copySource` and `DebugHelper::print` live in
debughelper.cpp, which is not under src/; per the spec's Debug Sink interface
they are `has_equivalent_copy() -> bool` and `print(stream)`, with no error
channel.  The source constructs `std::ofstream Output(OutputPath)` and passes
it to `print` without ever inspecting the stream state; a failed open leaves
the stream in a fail state whose writes are discarded, and `serialize`
returns void, reporting nothing. -/
def serialize (hasEquivalentCopy : Bool) (openOk : Bool) : SerializeOutcome :=
  if hasEquivalentCopy then { wrote := false, openFailureReported := false }
  else { wrote := openOk, openFailureReported := false }

/-! ### Basic lemmas about module lookup and update -/

lemma getFunction_name : ∀ (m : Module) (s : String) (f : Function),
    getFunction m s = some f → f.name = s := by
  intro m
  induction m with
  | nil => intro s f h; simp [getFunction] at h
  | cons g gs ih =>
    intro s f h
    by_cases hg : g.name = s
    · simp only [getFunction, if_pos hg] at h
      cases h
      exact hg
    · simp only [getFunction, if_neg hg] at h
      exact ih s f h

lemma setFunction_length : ∀ (m : Module) (n : String) (f : Function),
    (setFunction m n f).length = m.length := by
  intro m
  induction m with
  | nil => intro n f; rfl
  | cons g gs ih =>
    intro n f
    by_cases hg : g.name = n
    · simp [setFunction, if_pos hg]
    · simp [setFunction, if_neg hg, ih]

lemma getFunction_set_self : ∀ (m : Module) (n : String) (f g : Function),
    getFunction m n = some f → g.name = n →
    getFunction (setFunction m n g) n = some g := by
  intro m
  induction m with
  | nil => intro n f g h _; simp [getFunction] at h
  | cons a as ih =>
    intro n f g h hg
    by_cases ha : a.name = n
    · simp only [setFunction, if_pos ha, getFunction, if_pos hg]
    · simp only [setFunction, if_neg ha, getFunction, if_neg ha]
      simp only [getFunction, if_neg ha] at h
      exact ih n f g h hg

lemma getFunction_set_other : ∀ (m : Module) (n s : String) (g : Function),
    g.name = n → s ≠ n →
    getFunction (setFunction m n g) s = getFunction m s := by
  intro m
  induction m with
  | nil => intro n s g _ _; rfl
  | cons a as ih =>
    intro n s g hg hs
    by_cases ha : a.name = n
    · have hga : g.name ≠ s := by rw [hg]; exact fun h => hs h.symm
      have haa : a.name ≠ s := by rw [ha]; exact fun h => hs h.symm
      simp only [setFunction, if_pos ha, getFunction, if_neg hga, if_neg haa]
    · simp only [setFunction, if_neg ha, getFunction]
      by_cases has : a.name = s
      · simp [if_pos has]
      · simp [if_neg has, ih n s g hg hs]

lemma setFunction_self : ∀ (m : Module) (n : String) (f : Function),
    getFunction m n = some f → setFunction m n f = m := by
  intro m
  induction m with
  | nil => intro n f h; simp [getFunction] at h
  | cons a as ih =>
    intro n f h
    by_cases ha : a.name = n
    · simp only [getFunction, if_pos ha] at h
      cases h
      simp [setFunction, if_pos ha]
    · simp only [getFunction, if_neg ha] at h
      simp [setFunction, if_neg ha, ih n f h]

lemma zip_self_diff_zero : ∀ (l : Module),
    (l.zip l).countP (fun p => decide (p.1 ≠ p.2)) = 0 := by
  intro l
  induction l with
  | nil => rfl
  | cons a as ih =>
    rw [List.zip_cons_cons, List.countP_cons, ih]
    simp

lemma diffCount_refl (m : Module) : diffCount m m = 0 :=
  zip_self_diff_zero m

lemma diffCount_set : ∀ (m : Module) (n : String) (f : Function),
    diffCount m (setFunction m n f) ≤ 1 := by
  intro m
  induction m with
  | nil => intro n f; simp [diffCount, setFunction]
  | cons a as ih =>
    intro n f
    by_cases ha : a.name = n
    · simp only [diffCount, setFunction, if_pos ha, List.zip_cons_cons,
        List.countP_cons, zip_self_diff_zero]
      split <;> simp
    · have h2 := ih n f
      simp only [diffCount, setFunction, if_neg ha, List.zip_cons_cons,
        List.countP_cons] at h2 ⊢
      simp only [ne_eq, decide_not] at h2 ⊢
      simp
      omega

/-! ### Evaluation lemmas for the stubbing operations -/

lemma neutralizeStub_void (m : Module) (name : String) (f : Function)
    (h : getFunction m name = some f) (hty : f.retTy = .void) :
    neutralizeStub m name 0 =
      .ok (setFunction m name
            { f with linkage := .internal, blocks := [[.ret none]] }) := by
  simp [neutralizeStub, replaceFunctionWithRet, h, hty, replaceFunction]

lemma neutralizeStub_int (m : Module) (name : String) (f : Function)
    (bits r : Nat) (h : getFunction m name = some f)
    (hty : f.retTy = .int bits) :
    neutralizeStub m name r =
      .ok (setFunction m name
            { f with linkage := .internal,
                     blocks := [[.ret (some (r % 2 ^ bits))]] }) := by
  simp [neutralizeStub, replaceFunctionWithRet, h, hty, replaceFunction]

lemma neutralizeStub_other (m : Module) (name : String) (f : Function)
    (r : Nat) (h : getFunction m name = some f) (hty : f.retTy = .other) :
    neutralizeStub m name r =
      .ok (setFunction m name
            { f with linkage := .internal, blocks := [[.retGarbage]] }) := by
  simp [neutralizeStub, replaceFunctionWithRet, h, hty, replaceFunction]

lemma neutralizeStub_absent (m : Module) (name : String) (r : Nat)
    (h : getFunction m name = none) : neutralizeStub m name r = .ok m := by
  simp [neutralizeStub, replaceFunctionWithRet, h]

lemma trapStub_absent (m : Module) (name : String)
    (h : getFunction m name = none) : trapStub m name = .ok m := by
  simp [trapStub, h]

lemma trapStub_present (m : Module) (name : String) (f : Function)
    (h : getFunction m name = some f)
    (habort : (getFunction m "abort").isSome = true) :
    trapStub m name =
      .ok (setFunction m name
            { f with linkage := .internal,
                     blocks := [[.call "abort", .unreachable]] }) := by
  simp [trapStub, h, habort, replaceFunction]

lemma trapStub_no_abort (m : Module) (name : String) (f : Function)
    (h : getFunction m name = some f)
    (habort : getFunction m "abort" = none) :
    trapStub m name = .error "assert failed: abort != nullptr" := by
  simp [trapStub, h, habort]

/-- The result of a successful neutralize stubbing is a single replaced
function that is itself a fixed point of the same stubbing. -/
lemma neutralize_result (m : Module) (name : String) (r : Nat)
    (f : Function) (hf : getFunction m name = some f)
    (m' : Module) (h : neutralizeStub m name r = .ok m') :
    ∃ f1, m' = setFunction m name f1 ∧ f1.name = name ∧
      f1.linkage = .internal ∧ f1.retTy = f.retTy ∧
      neutralizeStub m' name r = .ok m' := by
  have hn : f.name = name := getFunction_name m name f hf
  cases hty : f.retTy with
  | void =>
    by_cases hr : r = 0
    · subst hr
      rw [neutralizeStub_void m name f hf hty] at h
      cases h
      refine ⟨{ f with linkage := .internal, blocks := [[.ret none]] },
        rfl, hn, rfl, hty, ?_⟩
      have hget := getFunction_set_self m name f
        { f with linkage := .internal, blocks := [[.ret none]] } hf hn
      rw [neutralizeStub_void _ name _ hget hty]
      congr 1
      exact setFunction_self _ name _ hget
    · exfalso
      simp [neutralizeStub, replaceFunctionWithRet, hf, hty, hr] at h
  | int bits =>
    rw [neutralizeStub_int m name f bits r hf hty] at h
    cases h
    refine ⟨{ f with linkage := .internal, blocks := [[.ret (some (r % 2 ^ bits))]] },
      rfl, hn, rfl, hty, ?_⟩
    have hget := getFunction_set_self m name f
      { f with linkage := .internal, blocks := [[.ret (some (r % 2 ^ bits))]] }
      hf hn
    rw [neutralizeStub_int _ name _ bits r hget hty]
    congr 1
    exact setFunction_self _ name _ hget
  | other =>
    rw [neutralizeStub_other m name f r hf hty] at h
    cases h
    refine ⟨{ f with linkage := .internal, blocks := [[.retGarbage]] },
      rfl, hn, rfl, hty, ?_⟩
    have hget := getFunction_set_self m name f
      { f with linkage := .internal, blocks := [[.retGarbage]] } hf hn
    rw [neutralizeStub_other _ name _ r hget hty]
    congr 1
    exact setFunction_self _ name _ hget

/-- The result of a successful trap stubbing is a single replaced function
that is itself a fixed point of the same stubbing. -/
lemma trap_result (m : Module) (name : String) (f : Function)
    (hf : getFunction m name = some f)
    (m' : Module) (h : trapStub m name = .ok m') :
    ∃ f1, m' = setFunction m name f1 ∧ f1.name = name ∧
      f1.linkage = .internal ∧ trapStub m' name = .ok m' := by
  have hn : f.name = name := getFunction_name m name f hf
  cases habort : (getFunction m "abort").isSome with
  | false =>
    exfalso
    rw [trapStub_no_abort m name f hf (Option.not_isSome_iff_eq_none.mp
      (by rw [habort]; exact Bool.false_ne_true))] at h
    cases h
  | true =>
    rw [trapStub_present m name f hf habort] at h
    cases h
    set f1 : Function :=
      { f with linkage := .internal,
               blocks := [[.call "abort", .unreachable]] } with hf1
    refine ⟨f1, rfl, hn, rfl, ?_⟩
    have hget := getFunction_set_self m name f f1 hf hn
    have habort' : (getFunction (setFunction m name f1) "abort").isSome = true := by
      by_cases hab : "abort" = name
      · subst hab
        rw [hget]
        rfl
      · rw [getFunction_set_other m name "abort" f1 hn hab]
        exact habort
    rw [trapStub_present _ name f1 hget habort']
    congr 1
    exact setFunction_self _ name _ hget

/-- If `abort` is missing from the Support Module while some name of the
list is present, the fold over the trap list stops with an assertion
failure. -/
lemma trapFold_error : ∀ (names : List String) (m : Module),
    getFunction m "abort" = none →
    (∃ n ∈ names, (getFunction m n).isSome = true) →
    isFatal (List.foldlM (fun acc n => trapStub acc n) m names) = true := by
  intro names
  induction names with
  | nil =>
    intro m _ hex
    simp at hex
  | cons a rest ih =>
    intro m habort hex
    cases ha : getFunction m a with
    | some f =>
      have herr := trapStub_no_abort m a f ha habort
      have hstep : List.foldlM (fun acc n => trapStub acc n) m (a :: rest) =
          Except.error "assert failed: abort != nullptr" := by
        simp only [List.foldlM, herr]
        rfl
      rw [hstep]
      rfl
    | none =>
      have hok := trapStub_absent m a ha
      have hstep : List.foldlM (fun acc n => trapStub acc n) m (a :: rest) =
          List.foldlM (fun acc n => trapStub acc n) m rest := by
        simp only [List.foldlM, hok]
        rfl
      rw [hstep]
      refine ih m habort ?_
      obtain ⟨n, hmem, hsome⟩ := hex
      rcases List.mem_cons.mp hmem with hna | hmem'
      · exfalso
        rw [hna, ha] at hsome
        cases hsome
      · exact ⟨n, hmem', hsome⟩

/-! ### Concrete modules used by the claim witnesses -/

/-- A small Support Module with the shapes the witnesses need. -/
def sampleModule : Module :=
  [⟨"page_check_range", .int 32, .external, [[.unreachable]]⟩,
   ⟨"page_get_flags", .int 32, .external, [[.unreachable]]⟩,
   ⟨"abort", .void, .external, [[.unreachable]]⟩,
   ⟨"cpu_restore_state", .void, .external, [[.unreachable]]⟩,
   ⟨"mmap_lock", .void, .external, [[.unreachable]]⟩]

/-- A Support Module holding a trap-list function but no `abort`. -/
def trapCexModule : Module :=
  [⟨"cpu_abort", .void, .external, [[.unreachable]]⟩]

/-- A Support Module function whose return type is neither void nor
integer. -/
def badRetFn : Function := ⟨"cpu_dump_state", .other, .external, [[.unreachable]]⟩

/-! ### Claims about the stubbing and serialization logic -/

/-- C2: the claim says a neutralize-stub target whose declared return type is
neither void nor an integer must make the run abort.  The source instead
executes `assert("No-op functions can only return void or an integer type")`,
whose condition is a non-null string literal and therefore always true: the
run does not abort, and a stub body returning the indeterminate `ResultValue`
is produced.  This theorem evaluates the embedded code at such an input and
shows the non-aborting outcome. -/
theorem C2_other_ret_does_not_abort :
    replaceFunctionWithRet (some badRetFn) 0 =
      .ok (some ⟨"cpu_dump_state", .other, .internal, [[.retGarbage]]⟩) := rfl

/-- C3: for a trap-list name present in the Support Module, stubbing replaces
the body with a single block calling `abort` followed by an unreachable
terminator; if `abort` is absent while a trap-list name is present, the whole
trap-stubbing run fails. -/
theorem C3_trap_stub (m : Module) (name : String) (f : Function)
    (hf : getFunction m name = some f) :
    ((getFunction m "abort").isSome = true →
      trapStub m name =
        .ok (setFunction m name
              { f with linkage := .internal,
                       blocks := [[.call "abort", .unreachable]] })) ∧
    (getFunction m "abort" = none → name ∈ AbortFunctionNames →
      isFatal (trapAll m) = true) := by
  constructor
  · intro habort
    exact trapStub_present m name f hf habort
  · intro habort hmem
    exact trapFold_error AbortFunctionNames m habort
      ⟨name, hmem, by rw [hf]; rfl⟩

theorem C3_trap_stub_witness :
    trapStub sampleModule "cpu_restore_state" =
      .ok (setFunction sampleModule "cpu_restore_state"
            ⟨"cpu_restore_state", .void, .internal,
             [[.call "abort", .unreachable]]⟩) ∧
    isFatal (trapAll trapCexModule) = true :=
  ⟨(C3_trap_stub sampleModule "cpu_restore_state"
      ⟨"cpu_restore_state", .void, .external, [[.unreachable]]⟩ rfl).1 rfl,
   (C3_trap_stub trapCexModule "cpu_abort"
      ⟨"cpu_abort", .void, .external, [[.unreachable]]⟩ rfl).2 rfl
      (by decide)⟩

/-- C6: for a present neutralize-list name, stubbing strips the body, makes
the function internal, and leaves a single block whose only instruction
returns the constant 0 of the declared integer type, or void when the return
type is void. -/
theorem C6_neutralize_stub (m : Module) (name : String) (f : Function)
    (hf : getFunction m name = some f) :
    (f.retTy = .void →
      neutralizeStub m name 0 =
        .ok (setFunction m name
              { f with linkage := .internal, blocks := [[.ret none]] })) ∧
    (∀ bits, f.retTy = .int bits →
      neutralizeStub m name 0 =
        .ok (setFunction m name
              { f with linkage := .internal, blocks := [[.ret (some 0)]] })) := by
  constructor
  · intro hty
    exact neutralizeStub_void m name f hf hty
  · intro bits hty
    have h := neutralizeStub_int m name f bits 0 hf hty
    simpa [Nat.zero_mod] using h

theorem C6_neutralize_stub_witness :
    neutralizeStub sampleModule "page_check_range" 0 =
      .ok (setFunction sampleModule "page_check_range"
            ⟨"page_check_range", .int 32, .internal, [[.ret (some 0)]]⟩) :=
  (C6_neutralize_stub sampleModule "page_check_range"
    ⟨"page_check_range", .int 32, .external, [[.unreachable]]⟩ rfl).2 32 rfl

/-- C7: the two special-cased support functions receive fixed-value stubs:
`page_check_range` gets a body returning the constant 1 and `page_get_flags`
a body returning the constant `0xffffffff`, both made internal with a single
block. -/
theorem C7_fixed_value_stubs (m : Module) (f g : Function)
    (hf : getFunction m "page_check_range" = some f) (hfty : f.retTy = .int 32)
    (hg : getFunction m "page_get_flags" = some g) (hgty : g.retTy = .int 32) :
    specialStubs m =
      .ok (setFunction
            (setFunction m "page_check_range"
              { f with linkage := .internal, blocks := [[.ret (some 1)]] })
            "page_get_flags"
              { g with linkage := .internal,
                       blocks := [[.ret (some 0xffffffff)]] }) := by
  have hfn : f.name = "page_check_range" := getFunction_name m _ f hf
  have h1 := neutralizeStub_int m "page_check_range" f 32 1 hf hfty
  have h1' : neutralizeStub m "page_check_range" 1 =
      .ok (setFunction m "page_check_range"
            { f with linkage := .internal, blocks := [[.ret (some 1)]] }) := by
    rw [h1]
    norm_num
  have hg1 : getFunction
      (setFunction m "page_check_range"
        { f with linkage := .internal, blocks := [[.ret (some 1)]] })
      "page_get_flags" = some g := by
    rw [getFunction_set_other m "page_check_range" "page_get_flags"
      { f with linkage := .internal, blocks := [[.ret (some 1)]] } hfn
      (by decide)]
    exact hg
  have h2 := neutralizeStub_int _ "page_get_flags" g 32 0xffffffff hg1 hgty
  have h2' : neutralizeStub
      (setFunction m "page_check_range"
        { f with linkage := .internal, blocks := [[.ret (some 1)]] })
      "page_get_flags" 0xffffffff =
      .ok (setFunction
            (setFunction m "page_check_range"
              { f with linkage := .internal, blocks := [[.ret (some 1)]] })
            "page_get_flags"
              { g with linkage := .internal,
                       blocks := [[.ret (some 0xffffffff)]] }) := by
    rw [h2]
    norm_num
  simp [specialStubs, h1', h2']

theorem C7_fixed_value_stubs_witness :
    specialStubs sampleModule =
      .ok (setFunction
            (setFunction sampleModule "page_check_range"
              ⟨"page_check_range", .int 32, .internal, [[.ret (some 1)]]⟩)
            "page_get_flags"
              ⟨"page_get_flags", .int 32, .internal,
               [[.ret (some 4294967295)]]⟩) :=
  C7_fixed_value_stubs sampleModule
    ⟨"page_check_range", .int 32, .external, [[.unreachable]]⟩
    ⟨"page_get_flags", .int 32, .external, [[.unreachable]]⟩
    rfl rfl rfl rfl

/-- C8 counterexample: the claim says a failure to open the output file is
reported to the caller.  In the source, `serialize` constructs the
`std::ofstream` and never inspects its state; nothing is reported on an open
failure. -/
theorem C8_open_failure_not_reported :
    ¬ ((serialize false false).openFailureReported = true) := by decide

/-- C8 amended: serialization first asks the Debug Sink whether it already
holds an equivalent textual copy; if so nothing is written; otherwise the
module's textual form is written to the configured output path when the file
opens, and a failure to open the output file is silently swallowed (the
stream failure is never inspected and nothing is reported to the caller). -/
theorem C8_serialize (hasEquivalentCopy openOk : Bool) :
    (hasEquivalentCopy = true →
      serialize hasEquivalentCopy openOk =
        { wrote := false, openFailureReported := false }) ∧
    (hasEquivalentCopy = false →
      serialize hasEquivalentCopy openOk =
        { wrote := openOk, openFailureReported := false }) := by
  constructor <;> intro h <;> subst h <;> rfl

theorem C8_serialize_witness :
    serialize true false = { wrote := false, openFailureReported := false } :=
  (C8_serialize true false).1 rfl

/-- C9: stubbing a name absent from the Support Module changes nothing, for
both the neutralize and the trap lists; for a present name at most one
function of the module is replaced, and repeating the same stubbing operation
yields the same module again (idempotence, no duplication). -/
theorem C9_stub_idempotent (m : Module) (name : String) (r : Nat) :
    (getFunction m name = none →
      neutralizeStub m name r = .ok m ∧ trapStub m name = .ok m) ∧
    (∀ m', neutralizeStub m name r = .ok m' →
      neutralizeStub m' name r = .ok m' ∧ m'.length = m.length ∧
      diffCount m m' ≤ 1) ∧
    (∀ m', trapStub m name = .ok m' →
      trapStub m' name = .ok m' ∧ m'.length = m.length ∧
      diffCount m m' ≤ 1) := by
  refine ⟨?_, ?_, ?_⟩
  · intro h
    exact ⟨neutralizeStub_absent m name r h, trapStub_absent m name h⟩
  · intro m' h
    cases hf : getFunction m name with
    | none =>
      rw [neutralizeStub_absent m name r hf] at h
      cases h
      exact ⟨neutralizeStub_absent m name r hf, rfl, by simp [diffCount_refl]⟩
    | some f =>
      obtain ⟨f1, hm', _, _, _, hidem⟩ := neutralize_result m name r f hf m' h
      refine ⟨hidem, ?_, ?_⟩
      · rw [hm', setFunction_length]
      · rw [hm']
        exact diffCount_set m name f1
  · intro m' h
    cases hf : getFunction m name with
    | none =>
      rw [trapStub_absent m name hf] at h
      cases h
      exact ⟨trapStub_absent m name hf, rfl, by simp [diffCount_refl]⟩
    | some f =>
      obtain ⟨f1, hm', _, _, hidem⟩ := trap_result m name f hf m' h
      refine ⟨hidem, ?_, ?_⟩
      · rw [hm', setFunction_length]
      · rw [hm']
        exact diffCount_set m name f1

theorem C9_stub_idempotent_witness :
    neutralizeStub [] "page_check_range" 0 = .ok [] ∧
    trapStub [] "page_check_range" = .ok [] :=
  (C9_stub_idempotent [] "page_check_range" 0).1 rfl

/-- C10: every stubbed function ends up with internal linkage, whichever path
replaced it (the neutralize list, the trap list, or the two special-cased
fixed-value stubs, which reuse the neutralize path): `replaceFunction` sets
the linkage unconditionally. -/
theorem C10_internal_linkage (m : Module) (name : String) (r : Nat)
    (m' : Module) :
    ((getFunction m name).isSome = true → neutralizeStub m name r = .ok m' →
      linkageOf m' name = some .internal) ∧
    ((getFunction m name).isSome = true → trapStub m name = .ok m' →
      linkageOf m' name = some .internal) := by
  constructor
  · intro hsome h
    obtain ⟨f, hf⟩ := Option.isSome_iff_exists.mp hsome
    obtain ⟨f1, hm', hname, hlink, _, _⟩ := neutralize_result m name r f hf m' h
    have hget := getFunction_set_self m name f f1 hf hname
    rw [hm', linkageOf, hget]
    simp [hlink]
  · intro hsome h
    obtain ⟨f, hf⟩ := Option.isSome_iff_exists.mp hsome
    obtain ⟨f1, hm', hname, hlink, _⟩ := trap_result m name f hf m' h
    have hget := getFunction_set_self m name f f1 hf hname
    rw [hm', linkageOf, hget]
    simp [hlink]

theorem C10_internal_linkage_witness :
    linkageOf (setFunction sampleModule "mmap_lock"
      ⟨"mmap_lock", .void, .internal, [[.ret none]]⟩) "mmap_lock" =
      some .internal :=
  (C10_internal_linkage sampleModule "mmap_lock" 0
    (setFunction sampleModule "mmap_lock"
      ⟨"mmap_lock", .void, .internal, [[.ret none]]⟩)).1 rfl rfl

/-!
### Part 2: the pseudo-op dispatch loop (codegenerator.cpp lines 160-221)

The inner loop of `CodeGenerator::translate` walks the pseudo-op batch
returned by one `ptc.translate` call.  The external collaborators are
modelled from the spec's interface section: `Translator.newInstruction`
(the instruction-boundary handler), `Translator.translateCall` and
`Translator.translate` each append zero or more IR instructions to the
current insertion point and may fan out into further touched blocks, which
they push onto the `Blocks` vector.  Everything else — the per-op distinct
PTC metadata node, the `MDOriginalInstr` update, the backward tagging walk,
and the synthesized fallthrough branch after a trailing call — is the
orchestrator's own code, embedded directly.
-/

/-- An IR instruction as far as the orchestrator can observe it: either the
explicit unconditional branch it synthesizes itself
(`Builder.CreateBr(JumpTargets.getBlockAt(NextPC))`) or an abstract
instruction appended by the external translator. -/
inductive IRInst where
  | br (addr : Nat)
  | abstract (id : Nat)
deriving DecidableEq, Repr

/-- An emitted instruction together with its two metadata slots: `oi` is the
original-source-instruction tag (`OriginalInstrMDKind`, from
`MDOriginalInstr`) and `pi` the decoded-pseudo-op-line tag
(`PTCInstrMDKind`, from the per-op distinct `MDPTCInstr`).  Metadata nodes
are identified by the index of the pseudo-op that created them, matching
`MDNode::getDistinct`, which yields a distinct node per loop iteration. -/
structure EmittedInst where
  inst : IRInst
  oi : Option Nat
  pi : Option Nat
deriving DecidableEq, Repr

/-- `Instruction::hasMetadata`: in this loop the two kinds are always set
together, so an instruction has metadata iff one of the slots is filled. -/
def hasMD (i : EmittedInst) : Bool := i.oi.isSome || i.pi.isSome

/-- `setMetadata` for both kinds at once (lines 216-217). -/
def setMD (o p : Nat) (i : EmittedInst) : EmittedInst :=
  { i with oi := some o, pi := some p }

/-- The backward tagging walk of lines 213-219, expressed on the reversed
block: `while (I != Block->begin() && !(--I)->hasMetadata())` stamps
instructions from the end of the block towards its start, stopping at the
first instruction that already has metadata (or at the block start). -/
def tagRev (o p : Nat) : List EmittedInst → List EmittedInst
  | [] => []
  | i :: rest => if hasMD i then i :: rest else setMD o p i :: tagRev o p rest

/-- The tagging walk on a block in source order. -/
def tagBlock (o p : Nat) (b : List EmittedInst) : List EmittedInst :=
  (tagRev o p b.reverse).reverse

/-- One pseudo-op of a batch, as dispatched by the switch of lines 179-202.
`emits` are the abstract ids of the instructions the external handler
appends to the current insertion block; `fanout` lists further touched
blocks (block index paired with appended instruction ids), modelling the
blocks the Pseudo-Op Compiler pushes onto `Blocks`. -/
inductive PseudoOp where
  | discard
  | insnStart (stop : Bool) (emits : List Nat)
  | call (emits : List Nat) (fanout : List (Nat × List Nat))
  | generic (emits : List Nat) (fanout : List (Nat × List Nat))
deriving DecidableEq, Repr

/-- The mutable state of the batch loop: the block list of the translation
function and the index of the builder's current insertion block. -/
structure BatchState where
  blocks : List (List EmittedInst)
  cur : Nat
deriving DecidableEq, Repr

/-- Instructions freshly appended by a handler carry no metadata yet. -/
def freshInsts (ids : List Nat) : List EmittedInst :=
  ids.map (fun n => ⟨.abstract n, none, none⟩)

/-- Append instructions at the end of the given block. -/
def appendTo (st : BatchState) (b : Nat) (is : List EmittedInst) : BatchState :=
  { st with blocks := st.blocks.set b (st.blocks.getD b [] ++ is) }

/-- Apply all fanout appends of one pseudo-op. -/
def applyFanout (st : BatchState) (fo : List (Nat × List Nat)) : BatchState :=
  fo.foldl (fun s pr => appendTo s pr.1 (freshInsts pr.2)) st

/-- Run the tagging walk on one block of the state. -/
def tagOne (o p : Nat) (st : BatchState) (b : Nat) : BatchState :=
  { st with blocks := st.blocks.set b (tagBlock o p (st.blocks.getD b [])) }

/-- Lines 213-219: run the tagging walk on every block in `Blocks`. -/
def tagBlocks (o p : Nat) (st : BatchState) (bs : List Nat) : BatchState :=
  bs.foldl (tagOne o p) st

/-- One iteration of the loop of lines 172-221 at index `j`, with `oi` the
id of the current `MDOriginalInstr`.  Returns `StopTranslation`, the new
`oi`, and the new state.  The per-iteration `MDPTCInstr` node is the
distinct node number `j`.  For a call pseudo-op that is the last of the
batch (`j == InstructionList->instruction_count - 1`), the orchestrator
appends an explicit fallthrough branch to the next-address block before the
tagging walk runs. -/
def stepOp (count nextPC j oi : Nat) (op : PseudoOp) (st : BatchState) :
    Bool × Nat × BatchState :=
  match op with
  | .discard => (false, oi, tagBlocks oi j st [st.cur])
  | .insnStart stop emits =>
    let st1 := appendTo st st.cur (freshInsts emits)
    (stop, j, tagBlocks j j st1 [st.cur])
  | .call emits fo =>
    let st1 := appendTo st st.cur (freshInsts emits)
    let st2 := applyFanout st1 fo
    let st3 := if j = count - 1
               then appendTo st2 st.cur [⟨.br nextPC, none, none⟩]
               else st2
    (false, oi, tagBlocks oi j st3 (st.cur :: fo.map Prod.fst))
  | .generic emits fo =>
    let st1 := appendTo st st.cur (freshInsts emits)
    let st2 := applyFanout st1 fo
    (false, oi, tagBlocks oi j st2 (st.cur :: fo.map Prod.fst))

/-- The loop of lines 172-221 from index `j` on, stopping early when a
handler sets `StopTranslation`. -/
def runLoop (count nextPC : Nat) : Nat → Nat → List PseudoOp → BatchState →
    BatchState
  | _, _, [], st => st
  | j, oi, op :: rest, st =>
    match stepOp count nextPC j oi op st with
    | (stop, oi2, st2) =>
      if stop then st2 else runLoop count nextPC (j + 1) oi2 rest st2

/-- What the first pseudo-op of the batch emits: the source handles index 0
unconditionally through `Translator.newInstruction(Instruction, true)`
(lines 164-170), before the dispatch loop — and before any tagging walk. -/
def firstOpEmits : PseudoOp → List Nat
  | .insnStart _ emits => emits
  | _ => []

/-- The stop signal returned by the boundary handler for the first op. -/
def firstOpStop : PseudoOp → Bool
  | .insnStart stop _ => stop
  | _ => false

/-- One whole batch (lines 160-221): handle the first op as the initial
instruction boundary (creating `MDOriginalInstr` node 0), then dispatch the
remaining ops from index 1. -/
def runBatch (nextPC : Nat) (ops : List PseudoOp) (st : BatchState) :
    BatchState :=
  match ops with
  | [] => st
  | op0 :: rest =>
    let st1 := appendTo st st.cur (freshInsts (firstOpEmits op0))
    if firstOpStop op0 then st1
    else runLoop ops.length nextPC 1 0 rest st1

/-- Whether a pseudo-op is an instruction-start marker. -/
def isMarker : PseudoOp → Bool
  | .insnStart _ _ => true
  | _ => false

/-- The id of the `MDOriginalInstr` node in effect after the dispatch of
pseudo-op `j`: the index of the most recent instruction-start marker at or
before `j` (index 0 always acts as the initial marker). -/
def oiAt (ops : List PseudoOp) : Nat → Nat
  | 0 => 0
  | j + 1 =>
    match ops.get? (j + 1) with
    | some op => if isMarker op then j + 1 else oiAt ops j
    | none => oiAt ops j

/-- Count of orchestrator-visible branch instructions in a block. -/
def isBr (i : EmittedInst) : Bool :=
  match i.inst with
  | .br _ => true
  | .abstract _ => false

def brCountBlock (b : List EmittedInst) : Nat := b.countP isBr

/-- Count of branch instructions in the whole state. -/
def brCount (st : BatchState) : Nat := (st.blocks.map brCountBlock).sum

/-! ### Lemmas about the tagging walk -/

lemma hasMD_setMD (o p : Nat) (i : EmittedInst) : hasMD (setMD o p i) = true := rfl

lemma isBr_setMD (o p : Nat) (i : EmittedInst) : isBr (setMD o p i) = isBr i := rfl

/-- A second walk over an already walked block changes nothing, whatever
metadata pair the second walk carries. -/
lemma tagRev_idem (o p o2 p2 : Nat) (l : List EmittedInst) :
    tagRev o2 p2 (tagRev o p l) = tagRev o p l := by
  cases l with
  | nil => rfl
  | cons i rest =>
    by_cases h : hasMD i = true
    · simp only [tagRev, if_pos h]
    · simp only [tagRev, if_neg h, hasMD_setMD, if_pos]

lemma tagBlock_idem (o p o2 p2 : Nat) (b : List EmittedInst) :
    tagBlock o2 p2 (tagBlock o p b) = tagBlock o p b := by
  unfold tagBlock
  rw [List.reverse_reverse, tagRev_idem]

/-- The walk tags exactly the maximal untagged suffix (seen reversed: the
maximal untagged take-while run) and leaves everything else untouched. -/
lemma tagRev_eq_parts (o p : Nat) (l : List EmittedInst) :
    tagRev o p l =
      (l.takeWhile (fun i => !hasMD i)).map (setMD o p) ++
        l.dropWhile (fun i => !hasMD i) := by
  induction l with
  | nil => rfl
  | cons i rest ih =>
    by_cases h : hasMD i = true
    · simp [tagRev, List.takeWhile_cons, List.dropWhile_cons, h]
    · simp [tagRev, List.takeWhile_cons, List.dropWhile_cons, h, ih]

lemma tagBlock_eq_parts (o p : Nat) (b : List EmittedInst) :
    tagBlock o p b =
      (b.reverse.dropWhile (fun i => !hasMD i)).reverse ++
        ((b.reverse.takeWhile (fun i => !hasMD i)).map (setMD o p)).reverse := by
  unfold tagBlock
  rw [tagRev_eq_parts, List.reverse_append]

lemma mem_tagRev (o p : Nat) : ∀ (l : List EmittedInst) (i : EmittedInst),
    i ∈ tagRev o p l → i ∈ l ∨ ∃ i0, i0 ∈ l ∧ i = setMD o p i0 := by
  intro l
  induction l with
  | nil => intro i h; simp [tagRev] at h
  | cons a rest ih =>
    intro i h
    by_cases ha : hasMD a = true
    · simp only [tagRev, if_pos ha] at h
      left
      exact h
    · simp only [tagRev, if_neg ha] at h
      rcases List.mem_cons.mp h with h1 | h2
      · right
        exact ⟨a, List.mem_cons_self a rest, h1⟩
      · rcases ih i h2 with h3 | ⟨i0, hi0, he⟩
        · left
          exact List.mem_cons_of_mem a h3
        · right
          exact ⟨i0, List.mem_cons_of_mem a hi0, he⟩

lemma mem_tagBlock (o p : Nat) (b : List EmittedInst) (i : EmittedInst)
    (h : i ∈ tagBlock o p b) :
    i ∈ b ∨ ∃ i0, i0 ∈ b ∧ i = setMD o p i0 := by
  unfold tagBlock at h
  rw [List.mem_reverse] at h
  rcases mem_tagRev o p _ i h with h1 | ⟨i0, hi0, he⟩
  · left
    exact List.mem_reverse.mp h1
  · right
    exact ⟨i0, List.mem_reverse.mp hi0, he⟩

lemma countP_tagRev (o p : Nat) (q : EmittedInst → Bool)
    (hq : ∀ i, q (setMD o p i) = q i) :
    ∀ l : List EmittedInst, (tagRev o p l).countP q = l.countP q := by
  intro l
  induction l with
  | nil => rfl
  | cons a rest ih =>
    by_cases ha : hasMD a = true
    · simp only [tagRev, if_pos ha]
    · simp only [tagRev, if_neg ha, List.countP_cons, ih, hq]

lemma countP_reverse_eq (q : EmittedInst → Bool) :
    ∀ l : List EmittedInst, l.reverse.countP q = l.countP q := by
  intro l
  induction l with
  | nil => rfl
  | cons a rest ih =>
    rw [List.reverse_cons, List.countP_append, ih]
    simp [List.countP_cons]
    try omega

lemma brCountBlock_tagBlock (o p : Nat) (b : List EmittedInst) :
    brCountBlock (tagBlock o p b) = brCountBlock b := by
  unfold brCountBlock tagBlock
  rw [countP_reverse_eq, countP_tagRev o p isBr (isBr_setMD o p),
    countP_reverse_eq]

lemma brCountBlock_fresh (ids : List Nat) : brCountBlock (freshInsts ids) = 0 := by
  induction ids with
  | nil => rfl
  | cons a rest ih =>
    simp only [freshInsts, List.map_cons, brCountBlock, List.countP_cons] at ih ⊢
    simp [ih, isBr]

lemma tagBlock_concat_untagged (o p : Nat) (l : List EmittedInst)
    (i : EmittedInst) (h : hasMD i = false) :
    (tagBlock o p (l ++ [i])).getLast? = some (setMD o p i) := by
  have h' : ¬ (hasMD i = true) := by rw [h]; exact Bool.false_ne_true
  unfold tagBlock
  rw [List.reverse_append]
  simp only [List.reverse_cons, List.reverse_nil, List.nil_append,
    List.singleton_append]
  simp only [tagRev, if_neg h']
  rw [List.reverse_cons, List.getLast?_concat]

/-! ### Lemmas about block-indexed state updates -/

lemma getD_set_self : ∀ (l : List (List EmittedInst)) (n : Nat)
    (v : List EmittedInst), n < l.length → (l.set n v).getD n [] = v := by
  intro l
  induction l with
  | nil => intro n v h; exact absurd h (Nat.not_lt_zero n)
  | cons x xs ih =>
    intro n v h
    cases n with
    | zero => rfl
    | succ m => exact ih m v (Nat.lt_of_succ_lt_succ h)

lemma getD_set_other : ∀ (l : List (List EmittedInst)) (n m : Nat)
    (v : List EmittedInst), n ≠ m → (l.set n v).getD m [] = l.getD m [] := by
  intro l
  induction l with
  | nil => intro n m v _; rfl
  | cons x xs ih =>
    intro n m v h
    cases n with
    | zero =>
      cases m with
      | zero => exact absurd rfl h
      | succ k => rfl
    | succ n' =>
      cases m with
      | zero => rfl
      | succ k => exact ih n' k v (fun he => h (by rw [he]))

lemma getD_mem_or (l : List (List EmittedInst)) :
    ∀ n : Nat, l.getD n [] ∈ l ∨ l.getD n [] = [] := by
  induction l with
  | nil => intro n; right; cases n <;> rfl
  | cons x xs ih =>
    intro n
    cases n with
    | zero => left; exact List.mem_cons_self x xs
    | succ m =>
      rcases ih m with h | h
      · left
        exact List.mem_cons_of_mem x h
      · right
        exact h

lemma mem_set_or (l : List (List EmittedInst)) :
    ∀ (n : Nat) (v x : List EmittedInst), x ∈ l.set n v → x ∈ l ∨ x = v := by
  induction l with
  | nil => intro n v x h; simp [List.set] at h
  | cons a as ih =>
    intro n v x h
    cases n with
    | zero =>
      rcases List.mem_cons.mp h with h1 | h2
      · right; exact h1
      · left; exact List.mem_cons_of_mem a h2
    | succ m =>
      rcases List.mem_cons.mp h with h1 | h2
      · left; rw [h1]; exact List.mem_cons_self a as
      · rcases ih m v x h2 with h3 | h4
        · left; exact List.mem_cons_of_mem a h3
        · right; exact h4

lemma appendTo_length (st : BatchState) (b : Nat) (is : List EmittedInst) :
    (appendTo st b is).blocks.length = st.blocks.length := by
  simp [appendTo]

lemma applyFanout_length : ∀ (fo : List (Nat × List Nat)) (st : BatchState),
    (applyFanout st fo).blocks.length = st.blocks.length := by
  intro fo
  induction fo with
  | nil => intro st; rfl
  | cons pr rest ih =>
    intro st
    show (applyFanout (appendTo st pr.1 (freshInsts pr.2)) rest).blocks.length = _
    rw [ih, appendTo_length]

lemma tagBlocks_length (o p : Nat) : ∀ (bs : List Nat) (st : BatchState),
    (tagBlocks o p st bs).blocks.length = st.blocks.length := by
  intro bs
  induction bs with
  | nil => intro st; rfl
  | cons b rest ih =>
    intro st
    show (tagBlocks o p (tagOne o p st b) rest).blocks.length = _
    rw [ih]
    simp [tagOne]

/-! ### Branch-count preservation -/

lemma map_sum_set (l : List (List EmittedInst)) :
    ∀ (n : Nat) (v : List EmittedInst),
    brCountBlock v = brCountBlock (l.getD n []) →
    ((l.set n v).map brCountBlock).sum = (l.map brCountBlock).sum := by
  induction l with
  | nil => intro n v _; rfl
  | cons x xs ih =>
    intro n v h
    cases n with
    | zero =>
      simp only [List.set, List.map_cons, List.sum_cons]
      rw [h]
      rfl
    | succ m =>
      simp only [List.set, List.map_cons, List.sum_cons]
      rw [ih m v h]

lemma brCount_appendTo_fresh (st : BatchState) (b : Nat) (ids : List Nat) :
    brCount (appendTo st b (freshInsts ids)) = brCount st := by
  unfold brCount appendTo
  refine map_sum_set st.blocks b _ ?_
  show brCountBlock (st.blocks.getD b [] ++ freshInsts ids) = _
  unfold brCountBlock
  rw [List.countP_append]
  have h0 := brCountBlock_fresh ids
  unfold brCountBlock at h0
  rw [h0, Nat.add_zero]

lemma brCount_applyFanout : ∀ (fo : List (Nat × List Nat)) (st : BatchState),
    brCount (applyFanout st fo) = brCount st := by
  intro fo
  induction fo with
  | nil => intro st; rfl
  | cons pr rest ih =>
    intro st
    show brCount (applyFanout (appendTo st pr.1 (freshInsts pr.2)) rest) = _
    rw [ih, brCount_appendTo_fresh]

lemma brCount_tagOne (o p : Nat) (st : BatchState) (b : Nat) :
    brCount (tagOne o p st b) = brCount st := by
  unfold brCount tagOne
  exact map_sum_set st.blocks b _ (brCountBlock_tagBlock o p _)

lemma brCount_tagBlocks (o p : Nat) : ∀ (bs : List Nat) (st : BatchState),
    brCount (tagBlocks o p st bs) = brCount st := by
  intro bs
  induction bs with
  | nil => intro st; rfl
  | cons b rest ih =>
    intro st
    show brCount (tagBlocks o p (tagOne o p st b) rest) = _
    rw [ih, brCount_tagOne]

lemma tagBlocks_cons (o p : Nat) (st : BatchState) (b : Nat) (bs : List Nat) :
    tagBlocks o p st (b :: bs) = tagBlocks o p (tagOne o p st b) bs := rfl

/-- Once a block holds the result of a walk with pair `(o, p)`, further
walks with the same pair over any block list leave it unchanged. -/
lemma tagBlocks_getD_fixed (o p : Nat) : ∀ (bs : List Nat) (st : BatchState)
    (c : Nat) (Y : List EmittedInst), c < st.blocks.length →
    st.blocks.getD c [] = tagBlock o p Y →
    (tagBlocks o p st bs).blocks.getD c [] = tagBlock o p Y := by
  intro bs
  induction bs with
  | nil => intro st c Y _ h; exact h
  | cons b rest ih =>
    intro st c Y hc h
    show (tagBlocks o p (tagOne o p st b) rest).blocks.getD c [] = _
    refine ih (tagOne o p st b) c Y ?_ ?_
    · show (st.blocks.set b _).length > c
      rw [List.length_set]
      exact hc
    · by_cases hbc : b = c
      · subst hbc
        show (st.blocks.set b (tagBlock o p (st.blocks.getD b []))).getD b [] = _
        rw [getD_set_self _ _ _ hc, h, tagBlock_idem]
      · show (st.blocks.set b _).getD c [] = _
        rw [getD_set_other _ _ _ _ hbc, h]

/-- C5: the per-pseudo-op metadata tagging walk (codegenerator.cpp lines
213-219) walks backward from the block's end, assigns the current pair only
to the maximal run of instructions with no metadata yet — stopping at the
first already-annotated instruction or at the block start, leaving the
remaining prefix untouched — and a second run of the same walk over the same
block changes nothing. -/
theorem C5_tagging_walk_idempotent (o p : Nat) (b : List EmittedInst) :
    tagBlock o p (tagBlock o p b) = tagBlock o p b ∧
    tagBlock o p b =
      (b.reverse.dropWhile (fun i => !hasMD i)).reverse ++
        ((b.reverse.takeWhile (fun i => !hasMD i)).map (setMD o p)).reverse :=
  ⟨tagBlock_idem o p o p b, tagBlock_eq_parts o p b⟩

/-- C1: when the call handler runs on the last pseudo-op of the batch
(`j == InstructionList->instruction_count - 1`), the orchestrator emits an
explicit unconditional branch, at the end of the current block, to the block
of the next sequential address (the virtual address plus the bytes the
decoder consumed); when the call is not the last pseudo-op, the orchestrator
synthesizes no branch at all. -/
theorem C1_call_fallthrough (count va consumed j oi : Nat)
    (emits : List Nat) (fo : List (Nat × List Nat)) (st : BatchState)
    (hcur : st.cur < st.blocks.length) :
    (j = count - 1 →
      ((stepOp count (va + consumed) j oi (.call emits fo) st).2.2.blocks.getD
          st.cur []).getLast? =
        some ⟨.br (va + consumed), some oi, some j⟩) ∧
    (j ≠ count - 1 →
      brCount (stepOp count (va + consumed) j oi (.call emits fo) st).2.2 =
        brCount st) := by
  constructor
  · intro hj
    subst hj
    simp only [stepOp]
    rw [if_pos trivial, tagBlocks_cons]
    set st1 := appendTo st st.cur (freshInsts emits) with hst1
    set st2 := applyFanout st1 fo with hst2
    have hlen1 : st.cur < st1.blocks.length := by
      rw [hst1, appendTo_length]
      exact hcur
    have hlen2 : st.cur < st2.blocks.length := by
      rw [hst2, applyFanout_length]
      exact hlen1
    set brI : EmittedInst := ⟨.br (va + consumed), none, none⟩ with hbr
    set st3 := appendTo st2 st.cur [brI] with hst3
    have hlen3 : st.cur < st3.blocks.length := by
      rw [hst3, appendTo_length]
      exact hlen2
    have hx : st3.blocks.getD st.cur [] =
        st2.blocks.getD st.cur [] ++ [brI] := by
      rw [hst3]
      show (st2.blocks.set st.cur
        (st2.blocks.getD st.cur [] ++ [brI])).getD st.cur [] = _
      exact getD_set_self _ _ _ hlen2
    have hone : (tagOne oi (count - 1) st3 st.cur).blocks.getD st.cur [] =
        tagBlock oi (count - 1) (st2.blocks.getD st.cur [] ++ [brI]) := by
      show (st3.blocks.set st.cur
        (tagBlock oi (count - 1) (st3.blocks.getD st.cur []))).getD st.cur [] = _
      rw [getD_set_self _ _ _ hlen3, hx]
    have hlen4 : st.cur < (tagOne oi (count - 1) st3 st.cur).blocks.length := by
      show st.cur < (st3.blocks.set _ _).length
      rw [List.length_set]
      exact hlen3
    have hfixed := tagBlocks_getD_fixed oi (count - 1) (fo.map Prod.fst)
      (tagOne oi (count - 1) st3 st.cur) st.cur
      (st2.blocks.getD st.cur [] ++ [brI]) hlen4 hone
    rw [hfixed, tagBlock_concat_untagged oi (count - 1) _ brI rfl]
    rfl
  · intro hj
    simp only [stepOp]
    rw [if_neg hj, brCount_tagBlocks, brCount_applyFanout,
      brCount_appendTo_fresh]

theorem C1_call_fallthrough_witness :
    ((stepOp 2 (100 + 0) 1 0 (.call [7] []) ⟨[[]], 0⟩).2.2.blocks.getD
        0 []).getLast? = some ⟨.br (100 + 0), some 0, some 1⟩ :=
  (C1_call_fallthrough 2 100 0 1 0 [7] [] ⟨[[]], 0⟩ (by decide)).1 rfl

/-! ### Coherence of the metadata pair through the batch loop -/

/-- An instruction's metadata is coherent with the batch: when its
pseudo-op-line tag is the node created at loop index `j`, its
original-instruction tag is the node of the most recent instruction-start
marker at or before `j`. -/
def cohI (ops : List PseudoOp) (i : EmittedInst) : Prop :=
  ∀ j, i.pi = some j → i.oi = some (oiAt ops j)

/-- Every instruction of every block of the state is coherent. -/
def InvB (ops : List PseudoOp) (st : BatchState) : Prop :=
  ∀ b ∈ st.blocks, ∀ i ∈ b, cohI ops i

lemma cohI_fresh (ops : List PseudoOp) (ids : List Nat) :
    ∀ i ∈ freshInsts ids, cohI ops i := by
  intro i hi j hj
  obtain ⟨n, _, he⟩ := List.mem_map.mp hi
  rw [← he] at hj
  cases hj

lemma InvB_appendTo (ops : List PseudoOp) (st : BatchState) (b : Nat)
    (is : List EmittedInst) (hst : InvB ops st)
    (his : ∀ i ∈ is, cohI ops i) : InvB ops (appendTo st b is) := by
  intro blk hblk i hi
  rcases mem_set_or st.blocks b _ blk hblk with h1 | h2
  · exact hst blk h1 i hi
  · rw [h2] at hi
    rcases List.mem_append.mp hi with h3 | h4
    · rcases getD_mem_or st.blocks b with h5 | h5
      · exact hst _ h5 i h3
      · rw [h5] at h3
        cases h3
    · exact his i h4

lemma InvB_applyFanout (ops : List PseudoOp) :
    ∀ (fo : List (Nat × List Nat)) (st : BatchState),
    InvB ops st → InvB ops (applyFanout st fo) := by
  intro fo
  induction fo with
  | nil => intro st h; exact h
  | cons pr rest ih =>
    intro st h
    show InvB ops (applyFanout (appendTo st pr.1 (freshInsts pr.2)) rest)
    exact ih _ (InvB_appendTo ops st pr.1 _ h (cohI_fresh ops pr.2))

lemma InvB_tagOne (ops : List PseudoOp) (o p : Nat) (st : BatchState)
    (b : Nat) (hst : InvB ops st) (ho : oiAt ops p = o) :
    InvB ops (tagOne o p st b) := by
  intro blk hblk i hi
  rcases mem_set_or st.blocks b _ blk hblk with h1 | h2
  · exact hst blk h1 i hi
  · rw [h2] at hi
    rcases mem_tagBlock o p _ i hi with h3 | ⟨i0, hi0, he⟩
    · rcases getD_mem_or st.blocks b with h5 | h5
      · exact hst _ h5 i h3
      · rw [h5] at h3
        cases h3
    · intro j hj
      rw [he] at hj ⊢
      have hp : p = j := by simpa [setMD] using hj
      subst hp
      simp [setMD, ho]

lemma InvB_tagBlocks (ops : List PseudoOp) (o p : Nat) (ho : oiAt ops p = o) :
    ∀ (bs : List Nat) (st : BatchState),
    InvB ops st → InvB ops (tagBlocks o p st bs) := by
  intro bs
  induction bs with
  | nil => intro st h; exact h
  | cons b rest ih =>
    intro st h
    rw [tagBlocks_cons]
    exact ih _ (InvB_tagOne ops o p st b h ho)

lemma oiAt_succ (ops : List PseudoOp) (k : Nat) (op : PseudoOp)
    (hop : ops.get? (k + 1) = some op) :
    oiAt ops (k + 1) = if isMarker op then k + 1 else oiAt ops k := by
  have hop2 : ops[k + 1]? = some op := by
    rw [← List.get?_eq_getElem?]
    exact hop
  simp [oiAt, hop2]

lemma InvB_stepOp (ops : List PseudoOp) (count nextPC k : Nat)
    (op : PseudoOp) (hop : ops.get? (k + 1) = some op) (st : BatchState)
    (hst : InvB ops st) :
    InvB ops (stepOp count nextPC (k + 1) (oiAt ops k) op st).2.2 := by
  have hoi := oiAt_succ ops k op hop
  cases op with
  | discard =>
    have ho : oiAt ops (k + 1) = oiAt ops k := by
      rw [hoi]
      rfl
    exact InvB_tagBlocks ops _ (k + 1) ho _ st hst
  | insnStart stop emits =>
    have ho : oiAt ops (k + 1) = k + 1 := by
      rw [hoi]
      rfl
    exact InvB_tagBlocks ops _ (k + 1) ho _ _
      (InvB_appendTo ops st st.cur _ hst (cohI_fresh ops emits))
  | call emits fo =>
    have ho : oiAt ops (k + 1) = oiAt ops k := by
      rw [hoi]
      rfl
    simp only [stepOp]
    refine InvB_tagBlocks ops _ (k + 1) ho _ _ ?_
    by_cases hlast : k + 1 = count - 1
    · rw [if_pos hlast]
      refine InvB_appendTo ops _ st.cur _
        (InvB_applyFanout ops fo _
          (InvB_appendTo ops st st.cur _ hst (cohI_fresh ops emits))) ?_
      intro i hi j hj
      rw [List.mem_singleton] at hi
      rw [hi] at hj
      cases hj
    · rw [if_neg hlast]
      exact InvB_applyFanout ops fo _
        (InvB_appendTo ops st st.cur _ hst (cohI_fresh ops emits))
  | generic emits fo =>
    have ho : oiAt ops (k + 1) = oiAt ops k := by
      rw [hoi]
      rfl
    exact InvB_tagBlocks ops _ (k + 1) ho _ _
      (InvB_applyFanout ops fo _
        (InvB_appendTo ops st st.cur _ hst (cohI_fresh ops emits)))

lemma stepOp_oi (ops : List PseudoOp) (count nextPC k : Nat) (op : PseudoOp)
    (hop : ops.get? (k + 1) = some op) (st : BatchState) :
    (stepOp count nextPC (k + 1) (oiAt ops k) op st).2.1 = oiAt ops (k + 1) := by
  have hoi := oiAt_succ ops k op hop
  cases op with
  | discard =>
    show oiAt ops k = oiAt ops (k + 1)
    rw [hoi]
    rfl
  | insnStart stop emits =>
    show k + 1 = oiAt ops (k + 1)
    rw [hoi]
    rfl
  | call emits fo =>
    show oiAt ops k = oiAt ops (k + 1)
    rw [hoi]
    rfl
  | generic emits fo =>
    show oiAt ops k = oiAt ops (k + 1)
    rw [hoi]
    rfl

lemma get_of_drop_cons : ∀ (l : List PseudoOp) (n : Nat) (a : PseudoOp)
    (t : List PseudoOp), l.drop n = a :: t → l.get? n = some a := by
  intro l
  induction l with
  | nil =>
    intro n a t h
    rw [List.drop_nil] at h
    cases h
  | cons x xs ih =>
    intro n a t h
    cases n with
    | zero =>
      rw [List.drop_zero] at h
      injection h with h1 h2
      rw [← h1]
      rfl
    | succ m => exact ih m a t h

lemma drop_succ_of_drop_cons : ∀ (l : List PseudoOp) (n : Nat) (a : PseudoOp)
    (t : List PseudoOp), l.drop n = a :: t → l.drop (n + 1) = t := by
  intro l
  induction l with
  | nil =>
    intro n a t h
    rw [List.drop_nil] at h
    cases h
  | cons x xs ih =>
    intro n a t h
    cases n with
    | zero =>
      rw [List.drop_zero] at h
      injection h
    | succ m =>
      show xs.drop (m + 1) = t
      exact ih m a t h

lemma InvB_runLoop (ops : List PseudoOp) (count nextPC : Nat) :
    ∀ (rest : List PseudoOp) (k : Nat) (st : BatchState),
    ops.drop (k + 1) = rest → InvB ops st →
    InvB ops (runLoop count nextPC (k + 1) (oiAt ops k) rest st) := by
  intro rest
  induction rest with
  | nil => intro k st _ h; exact h
  | cons op rest2 ih =>
    intro k st hdrop hst
    have hop : ops.get? (k + 1) = some op :=
      get_of_drop_cons ops (k + 1) op rest2 hdrop
    have hdrop2 : ops.drop (k + 2) = rest2 :=
      drop_succ_of_drop_cons ops (k + 1) op rest2 hdrop
    rcases hstep : stepOp count nextPC (k + 1) (oiAt ops k) op st with
      ⟨stop, oi2, st2⟩
    have hrun : runLoop count nextPC (k + 1) (oiAt ops k) (op :: rest2) st =
        if stop then st2
        else runLoop count nextPC (k + 2) oi2 rest2 st2 := by
      simp only [runLoop, hstep]
    rw [hrun]
    have hst2 : InvB ops st2 := by
      have h2 := InvB_stepOp ops count nextPC k op hop st hst
      rw [hstep] at h2
      exact h2
    cases stop with
    | true =>
      rw [if_pos rfl]
      exact hst2
    | false =>
      rw [if_neg (by simp)]
      have hoi2 : oi2 = oiAt ops (k + 1) := by
        have h3 := stepOp_oi ops count nextPC k op hop st
        rw [hstep] at h3
        exact h3
      rw [hoi2]
      exact ih (k + 1) st2 hdrop2 hst2

lemma InvB_runBatch (ops : List PseudoOp) (nextPC : Nat) (st : BatchState)
    (hst : InvB ops st) : InvB ops (runBatch nextPC ops st) := by
  cases ops with
  | nil => exact hst
  | cons op0 rest =>
    show InvB (op0 :: rest)
      (if firstOpStop op0
       then appendTo st st.cur (freshInsts (firstOpEmits op0))
       else runLoop (op0 :: rest).length nextPC 1 0 rest
              (appendTo st st.cur (freshInsts (firstOpEmits op0))))
    have h1 : InvB (op0 :: rest)
        (appendTo st st.cur (freshInsts (firstOpEmits op0))) :=
      InvB_appendTo _ st st.cur _ hst (cohI_fresh _ _)
    cases hstop : firstOpStop op0 with
    | true =>
      rw [if_pos rfl]
      exact h1
    | false =>
      rw [if_neg (by simp)]
      have hdrop : (op0 :: rest).drop 1 = rest := rfl
      exact InvB_runLoop (op0 :: rest) (op0 :: rest).length nextPC rest 0 _
        hdrop h1

/-- A batch with one original instruction decoded into two pseudo-ops:
marker, two generic ops emitting one instruction each, then the next
marker. -/
def cexOps : List PseudoOp :=
  [.insnStart false [], .generic [10] [], .generic [20] [],
   .insnStart false []]

def cexSt : BatchState := ⟨[[]], 0⟩

/-- A minimal batch used by the C4 witness. -/
def demoOps : List PseudoOp := [.insnStart false [], .generic [10] []]

def demoSt : BatchState := ⟨[[]], 0⟩

/-- C4 counterexample: the claim says every instruction emitted between two
consecutive instruction-start markers carries the same metadata pair.  In
the batch `cexOps` the two instructions emitted between the markers at
indices 0 and 3 share the original-instruction tag (node 0) but carry
different pseudo-op-line tags (the distinct nodes of ops 1 and 2), because
the source creates a distinct `MDPTCInstr` node per pseudo-op. -/
theorem C4_counterexample :
    (runBatch 100 cexOps cexSt).blocks =
      [[⟨.abstract 10, some 0, some 1⟩, ⟨.abstract 20, some 0, some 2⟩]] ∧
    (⟨.abstract 10, some 0, some 1⟩ : EmittedInst).pi ≠
      (⟨.abstract 20, some 0, some 2⟩ : EmittedInst).pi := by
  constructor
  · rfl
  · decide

/-- C4 amended: every tagged instruction's original-instruction tag is
determined by its pseudo-op-line tag — an instruction tagged at pseudo-op
index `j` carries the original-instruction tag of the most recent
instruction-start marker at or before `j`.  Hence all instructions emitted
between the same pair of consecutive markers share the same
original-source-instruction tag, while the decoded-pseudo-op-line tag is
shared only among instructions tagged by the same pseudo-op (it differs
across pseudo-ops of the batch). -/
theorem C4_tag_coherent (ops : List PseudoOp) (nextPC : Nat)
    (st : BatchState)
    (h : ∀ b ∈ st.blocks, ∀ i ∈ b, i.oi = none ∧ i.pi = none) :
    (∀ b ∈ (runBatch nextPC ops st).blocks, ∀ i ∈ b, ∀ j,
        i.pi = some j → i.oi = some (oiAt ops j)) ∧
    (∀ b1 ∈ (runBatch nextPC ops st).blocks,
     ∀ b2 ∈ (runBatch nextPC ops st).blocks,
        ∀ i1 ∈ b1, ∀ i2 ∈ b2, ∀ j1 j2, i1.pi = some j1 → i2.pi = some j2 →
        oiAt ops j1 = oiAt ops j2 → i1.oi = i2.oi) := by
  have hinv : InvB ops st := by
    intro b hb i hi j hj
    rcases h b hb i hi with ⟨_, hpi⟩
    rw [hpi] at hj
    cases hj
  have hmain := InvB_runBatch ops nextPC st hinv
  constructor
  · intro b hb i hi j hj
    exact hmain b hb i hi j hj
  · intro b1 hb1 b2 hb2 i1 hi1 i2 hi2 j1 j2 hj1 hj2 heq
    rw [hmain b1 hb1 i1 hi1 j1 hj1, hmain b2 hb2 i2 hi2 j2 hj2, heq]

theorem C4_tag_coherent_witness :
    (⟨.abstract 10, some 0, some 1⟩ : EmittedInst).oi =
      some (oiAt demoOps 1) :=
  (C4_tag_coherent demoOps 100 demoSt (by decide)).1
    [⟨.abstract 10, some 0, some 1⟩] (by decide)
    ⟨.abstract 10, some 0, some 1⟩ (by decide) 1 rfl

end Revamb
